import Mathlib

/-!
Verification of the subscription aggregation service.

This file gives a shallow embedding of the repository's core logic:

* `internal/http/handlers/aggregation.go`: `monthsInclusive`, `maxTime`,
  `minTime`, and the aggregation loop of `Total` (the per-item clamp,
  the skip condition and the running integer sum);
* `internal/utils` (month-year codec): `ParseMonthYear`, `FormatMonthYear`;
* `internal/http/handlers/subscriptions.go`: `parseSubscriptionRequest`.

Go's `time.Time` is embedded as a record of (year, month, day,
nanosecond-within-day) integers, all implicitly in UTC.  Every date this
service manipulates is constructed by `time.Date(..., time.UTC)` with
in-range fields, and for such UTC times the instant order used by
`time.Time.Before` / `time.Time.After` coincides with the lexicographic
order on (year, month, day, time-of-day), which is how `GoTime.before` is
defined below.
-/

/-- Embedding of Go `time.Time` (UTC): calendar fields plus the time of day
collapsed to nanoseconds within the day. -/
structure GoTime where
  year : Int
  month : Int
  day : Int
  nsec : Int
deriving DecidableEq, Repr

/-- The comparison `a.Before(b)`: instant comparison, which for in-range UTC field values
is the lexicographic order on (year, month, day, time-of-day). -/
def GoTime.before (a b : GoTime) : Bool :=
  decide (a.year < b.year ∨ (a.year = b.year ∧ (a.month < b.month ∨
    (a.month = b.month ∧ (a.day < b.day ∨ (a.day = b.day ∧ a.nsec < b.nsec))))))

/-- The comparison `a.After(b)` holds exactly when `b.Before(a)` does. -/
def GoTime.after (a b : GoTime) : Bool :=
  GoTime.before b a

/-- Function `maxTime` from aggregation.go: the later of two time values. -/
def maxTime (a b : GoTime) : GoTime :=
  if a.after b then a else b

/-- Function `minTime` from aggregation.go: the earlier of two time values. -/
def minTime (a b : GoTime) : GoTime :=
  if a.before b then a else b

/-- Function `monthsInclusive` from aggregation.go:
`(end.Year()-start.Year())*12 + int(end.Month()-start.Month()) + 1`. -/
def monthsInclusive (start finish : GoTime) : Int :=
  (finish.year - start.year) * 12 + (finish.month - start.month) + 1

/-- Modelled from the spec: the `domain.Subscription` entity (spec §3) is not
among the provided source files, only its handler-side uses are; its fields
are taken from §3 and from how `subscriptions.go` and `aggregation.go` read
and build it.  `U` stands for `uuid.UUID`, which is opaque here. -/
structure Subscription (U : Type) where
  id : U
  serviceName : List Char
  price : Int
  userID : U
  startDate : GoTime
  endDate : Option GoTime
  createdAt : GoTime
  updatedAt : GoTime
deriving DecidableEq

/-- One iteration of the aggregation loop in `Total` (aggregation.go lines
141-160): clamp the subscription's lifetime to the window, skip when the
clamped range is empty, otherwise contribute `months * price`. -/
def contribution {U : Type} (periodStart periodEnd : GoTime)
    (s : Subscription U) : Int :=
  let activeStart := maxTime s.startDate periodStart
  let activeEnd :=
    match s.endDate with
    | none => periodEnd
    | some e => minTime e periodEnd
  if activeEnd.before activeStart then 0
  else monthsInclusive activeStart activeEnd * s.price

/-- The body of the aggregation loop with the running accumulator made
explicit. -/
def totalStep {U : Type} (periodStart periodEnd : GoTime)
    (total : Int) (s : Subscription U) : Int :=
  let activeStart := maxTime s.startDate periodStart
  let activeEnd :=
    match s.endDate with
    | none => periodEnd
    | some e => minTime e periodEnd
  if activeEnd.before activeStart then total
  else total + monthsInclusive activeStart activeEnd * s.price

/-- The aggregation loop of the `Total` method of `AggregationHandler`
(aggregation.go lines 135-161): an integer accumulator starting at 0,
folded over the candidate slice. -/
def AggregationHandler.Total {U : Type} (items : List (Subscription U))
    (periodStart periodEnd : GoTime) : Int :=
  items.foldl (totalStep periodStart periodEnd) 0

/-- The loop body adds exactly `contribution`. -/
lemma totalStep_eq {U : Type} (periodStart periodEnd : GoTime)
    (t : Int) (s : Subscription U) :
    totalStep periodStart periodEnd t s
      = t + contribution periodStart periodEnd s := by
  simp only [totalStep, contribution]
  cases s.endDate <;> simp only [] <;> split <;> simp

lemma total_foldl_from {U : Type} (items : List (Subscription U))
    (periodStart periodEnd : GoTime) (a : Int) :
    items.foldl (totalStep periodStart periodEnd) a
      = a + ((items.map (contribution periodStart periodEnd)).sum) := by
  induction items generalizing a with
  | nil => simp
  | cons s rest ih =>
      simp only [List.foldl_cons, List.map_cons, List.sum_cons]
      rw [totalStep_eq, ih]
      ring

/-- The total is the sum of the per-item contributions. -/
lemma Total_eq_sum {U : Type} (items : List (Subscription U))
    (periodStart periodEnd : GoTime) :
    AggregationHandler.Total items periodStart periodEnd
      = (items.map (contribution periodStart periodEnd)).sum := by
  simpa [AggregationHandler.Total] using
    total_foldl_from items periodStart periodEnd 0

/-- Unfolding of the instant order into a proposition on the fields. -/
lemma before_iff (a b : GoTime) :
    a.before b = true ↔
      (a.year < b.year ∨ (a.year = b.year ∧ (a.month < b.month ∨
        (a.month = b.month ∧ (a.day < b.day ∨ (a.day = b.day ∧ a.nsec < b.nsec)))))) := by
  simp [GoTime.before]

/-- The per-item expression of spec §4.2 as the claim words it:
`min(endDate-or-periodEnd, periodEnd)` against `max(startDate, periodStart)`. -/
def contributionSpec {U : Type} (periodStart periodEnd : GoTime)
    (s : Subscription U) : Int :=
  let activeEnd := minTime (s.endDate.getD periodEnd) periodEnd
  let activeStart := maxTime s.startDate periodStart
  if activeEnd.before activeStart then 0
  else monthsInclusive activeStart activeEnd * s.price

/-- The loop's contribution agrees with the spec's clamp expression: for an
open-ended subscription the loop uses `periodEnd` directly, while the spec
takes `min(periodEnd, periodEnd)`, and the two coincide. -/
lemma contribution_eq_spec {U : Type} (periodStart periodEnd : GoTime)
    (s : Subscription U) :
    contribution periodStart periodEnd s
      = contributionSpec periodStart periodEnd s := by
  simp only [contribution, contributionSpec]
  cases s.endDate with
  | none => simp [minTime]
  | some e => rfl

/-- Go's zero `time.Time`: January 1 of year 1, midnight UTC. -/
def goZeroTime : GoTime := ⟨1, 1, 1, 0⟩

def jan2025 : GoTime := ⟨2025, 1, 1, 0⟩

def feb2025 : GoTime := ⟨2025, 2, 1, 0⟩

def mar2025 : GoTime := ⟨2025, 3, 1, 0⟩

/-- The first candidate of the end-to-end scenario: price 500, starts
2025-01, open-ended. -/
def exampleSub1 : Subscription Unit :=
  { id := (), serviceName := ['a'], price := 500, userID := (),
    startDate := jan2025, endDate := none,
    createdAt := goZeroTime, updatedAt := goZeroTime }

/-- The second candidate of the end-to-end scenario: price 300, active
exactly in 2025-02. -/
def exampleSub2 : Subscription Unit :=
  { id := (), serviceName := ['b'], price := 300, userID := (),
    startDate := feb2025, endDate := some feb2025,
    createdAt := goZeroTime, updatedAt := goZeroTime }

/-- C1: the aggregation total is the sum over candidates of the clamped
month-count times price, where a candidate whose clamped range is empty
contributes 0; on the end-to-end scenario (candidates {500, 2025-01, open}
and {300, 2025-02..2025-02}, window 2025-01..2025-03) the total is 1800. -/
theorem total_matches_clamp_sum :
    (∀ (U : Type) (items : List (Subscription U)) (periodStart periodEnd : GoTime),
      AggregationHandler.Total items periodStart periodEnd
        = (items.map (contributionSpec periodStart periodEnd)).sum)
    ∧ AggregationHandler.Total [exampleSub1, exampleSub2] jan2025 mar2025 = 1800 := by
  constructor
  · intro U items ps pe
    rw [Total_eq_sum, funext (contribution_eq_spec ps pe)]
  · decide

/-- C6: the aggregation total is invariant under permutation of the
candidate list.  The embedding is a pure function, so determinism across
recomputations is definitional. -/
theorem total_perm_invariant :
    ∀ (U : Type) (items items' : List (Subscription U)) (periodStart periodEnd : GoTime),
      items.Perm items' →
      AggregationHandler.Total items periodStart periodEnd
        = AggregationHandler.Total items' periodStart periodEnd := by
  intro U l l' ps pe h
  rw [Total_eq_sum, Total_eq_sum]
  exact (h.map (contribution ps pe)).sum_eq

/-- Witness for C6: swapping the two scenario candidates leaves the total
unchanged. -/
theorem total_perm_invariant_witness :
    AggregationHandler.Total [exampleSub1, exampleSub2] jan2025 mar2025
      = AggregationHandler.Total [exampleSub2, exampleSub1] jan2025 mar2025 :=
  total_perm_invariant Unit _ _ jan2025 mar2025
    (List.Perm.swap exampleSub2 exampleSub1 [])

/-- C7: the empty candidate list aggregates to 0 over every window; `Total`
is a total function of its inputs, so every well-typed input produces a
total and there is no error state. -/
theorem total_empty_zero :
    ∀ (U : Type) (periodStart periodEnd : GoTime),
      AggregationHandler.Total ([] : List (Subscription U)) periodStart periodEnd = 0 :=
  fun _ _ _ => rfl

/-- In a degenerate window (`periodEnd < periodStart`) every candidate's
clamp is empty: `activeEnd ≤ periodEnd < periodStart ≤ activeStart`. -/
lemma contribution_zero_of_degenerate {U : Type} (periodStart periodEnd : GoTime)
    (s : Subscription U) (h : periodEnd.before periodStart = true) :
    contribution periodStart periodEnd s = 0 := by
  rw [before_iff] at h
  unfold contribution maxTime minTime GoTime.after
  cases hE : s.endDate <;>
    simp only [GoTime.before, decide_eq_true_eq] <;>
    split_ifs <;>
    first
      | rfl
      | (exfalso; omega)

/-- C4: with `periodEnd < periodStart`, every candidate is skipped and the
total is 0; no error is raised (`Total` is a total function). -/
theorem degenerate_window_total_zero :
    ∀ (U : Type) (items : List (Subscription U)) (periodStart periodEnd : GoTime),
      periodEnd.before periodStart = true →
      (∀ s ∈ items, contribution periodStart periodEnd s = 0)
        ∧ AggregationHandler.Total items periodStart periodEnd = 0 := by
  intro U items ps pe h
  refine ⟨fun s _ => contribution_zero_of_degenerate ps pe s h, ?_⟩
  rw [Total_eq_sum]
  apply List.sum_eq_zero
  intro x hx
  rcases List.mem_map.mp hx with ⟨s, hs, rfl⟩
  exact contribution_zero_of_degenerate ps pe s h

/-- Witness for C4: a non-empty candidate list over the reversed window
2025-03..2025-01 aggregates to 0. -/
theorem degenerate_window_total_zero_witness :
    GoTime.before jan2025 mar2025 = true
      ∧ AggregationHandler.Total [exampleSub1, exampleSub2] mar2025 jan2025 = 0 :=
  ⟨by decide,
    (degenerate_window_total_zero Unit [exampleSub1, exampleSub2] mar2025 jan2025
      (by decide)).2⟩

/-- The overlap predicate of the collaborator's query (`ListOverlapping`):
`start_date <= periodEnd AND (end_date IS NULL OR end_date >= periodStart)`. -/
def overlapsWindow {U : Type} (periodStart periodEnd : GoTime)
    (s : Subscription U) : Bool :=
  !(periodEnd.before s.startDate) &&
    (match s.endDate with
     | none => true
     | some e => !(e.before periodStart))

/-- A candidate whose lifetime lies entirely after (or entirely before) the
window contributes zero. -/
lemma contribution_zero_of_no_overlap {U : Type} (periodStart periodEnd : GoTime)
    (s : Subscription U)
    (h : periodEnd.before s.startDate = true
      ∨ ∃ e, s.endDate = some e ∧ e.before periodStart = true) :
    contribution periodStart periodEnd s = 0 := by
  unfold contribution maxTime minTime GoTime.after
  rcases h with h | ⟨e, hE, h⟩
  · rw [before_iff] at h
    cases hE : s.endDate <;>
      simp only [GoTime.before, decide_eq_true_eq] <;>
      split_ifs <;> first | rfl | (exfalso; omega)
  · rw [before_iff] at h
    rw [hE]
    simp only [GoTime.before, decide_eq_true_eq]
    split_ifs <;> first | rfl | (exfalso; omega)

/-- Failing the collaborator's overlap predicate means the candidate's
lifetime misses the window on one side. -/
lemma no_overlap_of_not_overlapsWindow {U : Type} (periodStart periodEnd : GoTime)
    (s : Subscription U) (h : overlapsWindow periodStart periodEnd s = false) :
    periodEnd.before s.startDate = true
      ∨ ∃ e, s.endDate = some e ∧ e.before periodStart = true := by
  unfold overlapsWindow at h
  cases hE : s.endDate with
  | none =>
      rw [hE] at h
      simp at h
      exact Or.inl h
  | some e =>
      rw [hE] at h
      by_cases h1 : periodEnd.before s.startDate = true
      · exact Or.inl h1
      · simp at h
        exact Or.inr ⟨e, rfl, h (by simpa using h1)⟩

/-- C5: a candidate that does not truly overlap the window (it starts
after `periodEnd`, or its end date exists and precedes `periodStart`)
contributes exactly 0, and filtering the candidate list down to the
truly-overlapping rows leaves the total unchanged, so the engine tolerates
a superset from the selector. -/
theorem no_overlap_superset_safe :
    (∀ (U : Type) (periodStart periodEnd : GoTime) (s : Subscription U),
      periodEnd.before periodStart = false →
      (periodEnd.before s.startDate = true
        ∨ ∃ e, s.endDate = some e ∧ e.before periodStart = true) →
      contribution periodStart periodEnd s = 0)
    ∧ (∀ (U : Type) (items : List (Subscription U)) (periodStart periodEnd : GoTime),
      periodEnd.before periodStart = false →
      AggregationHandler.Total items periodStart periodEnd
        = AggregationHandler.Total
            (items.filter (overlapsWindow periodStart periodEnd))
            periodStart periodEnd) := by
  constructor
  · intro U ps pe s _ h
    exact contribution_zero_of_no_overlap ps pe s h
  · intro U items ps pe _
    rw [Total_eq_sum, Total_eq_sum]
    induction items with
    | nil => rfl
    | cons s rest ih =>
        by_cases hs : overlapsWindow ps pe s = true
        · simp only [List.filter_cons, hs, if_true, List.map_cons, List.sum_cons, ih]
        · have hs' : overlapsWindow ps pe s = false := by simpa using hs
          have h0 : contribution ps pe s = 0 :=
            contribution_zero_of_no_overlap ps pe s
              (no_overlap_of_not_overlapsWindow ps pe s hs')
          simp [List.filter_cons, hs', h0, ih]

def may2025 : GoTime := ⟨2025, 5, 1, 0⟩

/-- A candidate starting after the window ends (spec property P5). -/
def exampleSub3 : Subscription Unit :=
  { id := (), serviceName := ['d'], price := 700, userID := (),
    startDate := may2025, endDate := none,
    createdAt := goZeroTime, updatedAt := goZeroTime }

/-- Witness for C5: over the window 2025-01..2025-03, a subscription
starting 2025-05 contributes 0 and dropping non-overlapping candidates
leaves the total unchanged. -/
theorem no_overlap_superset_safe_witness :
    contribution jan2025 mar2025 exampleSub3 = 0
      ∧ AggregationHandler.Total [exampleSub1, exampleSub3] jan2025 mar2025
        = AggregationHandler.Total
            (([exampleSub1, exampleSub3]).filter (overlapsWindow jan2025 mar2025))
            jan2025 mar2025 :=
  ⟨no_overlap_superset_safe.1 Unit jan2025 mar2025 exampleSub3 (by decide)
      (Or.inl (by decide)),
    no_overlap_superset_safe.2 Unit [exampleSub1, exampleSub3] jan2025 mar2025
      (by decide)⟩

/-- Normalization to the first day of the calendar month at UTC midnight:
`time.Date(t.Year(), t.Month(), 1, 0, 0, 0, 0, time.UTC)`. -/
def monthStart (t : GoTime) : GoTime := ⟨t.year, t.month, 1, 0⟩

/-- A date is month-normalized when it already is the first of its month at
midnight. -/
def GoTime.isMonthStart (t : GoTime) : Prop := t.day = 1 ∧ t.nsec = 0

/-- A date whose month field is a real calendar month, as every Go
`time.Time` has. -/
def GoTime.monthValid (t : GoTime) : Prop := 1 ≤ t.month ∧ t.month ≤ 12

instance (t : GoTime) : Decidable t.isMonthStart := by
  unfold GoTime.isMonthStart; infer_instance

instance (t : GoTime) : Decidable t.monthValid := by
  unfold GoTime.monthValid; infer_instance

/-- A candidate whose start date carries a mid-month day component; the
parsing layer never produces one, but the aggregation loop itself does not
normalize. -/
def c3Sub : Subscription Unit :=
  { id := (), serviceName := ['c'], price := 100, userID := (),
    startDate := ⟨2025, 1, 15, 0⟩, endDate := none,
    createdAt := goZeroTime, updatedAt := goZeroTime }

/-- Counterexample to C3 as stated: over the window 2025-01..2025-01, the
candidate starting 2025-01-15 is skipped (its clamped range compares empty
at instant precision), while the same candidate with its start date
replaced by its month-normalized form contributes 100, so replacing an
input date by its month-normalized form changes the total. -/
theorem total_changes_under_month_normalization :
    AggregationHandler.Total [c3Sub] jan2025 jan2025 = 0
      ∧ AggregationHandler.Total
          [{ c3Sub with startDate := monthStart c3Sub.startDate }] jan2025 jan2025 = 100
      ∧ AggregationHandler.Total [c3Sub] jan2025 jan2025
          ≠ AggregationHandler.Total
              [{ c3Sub with startDate := monthStart c3Sub.startDate }] jan2025 jan2025 :=
  ⟨by decide, by decide, by decide⟩

/-- The month index of a date: months are counted linearly as
`year * 12 + month`, which determines and is determined by the (year,
month) pair for valid months. -/
def monthIndex (t : GoTime) : Int := t.year * 12 + t.month

/-- Per-item clamp expressed purely on month indices. -/
def contributionM (periodStartM periodEndM : Int) (x : Int × Int × Option Int) : Int :=
  let activeStart := max x.2.1 periodStartM
  let activeEnd :=
    match x.2.2 with
    | none => periodEndM
    | some e => min e periodEndM
  if activeEnd < activeStart then 0 else (activeEnd - activeStart + 1) * x.1

/-- The aggregation loop expressed purely on month indices, over
(price, start index, optional end index) triples. -/
def TotalByMonthIndex (items : List (Int × Int × Option Int))
    (periodStartM periodEndM : Int) : Int :=
  items.foldl (fun total x => total + contributionM periodStartM periodEndM x) 0

lemma totalM_foldl_from (items : List (Int × Int × Option Int))
    (periodStartM periodEndM : Int) (a : Int) :
    items.foldl (fun total x => total + contributionM periodStartM periodEndM x) a
      = a + (items.map (contributionM periodStartM periodEndM)).sum := by
  induction items generalizing a with
  | nil => simp
  | cons x rest ih =>
      simp only [List.foldl_cons, List.map_cons, List.sum_cons]
      rw [ih]
      ring

lemma TotalByMonthIndex_eq_sum (items : List (Int × Int × Option Int))
    (periodStartM periodEndM : Int) :
    TotalByMonthIndex items periodStartM periodEndM
      = (items.map (contributionM periodStartM periodEndM)).sum := by
  simpa [TotalByMonthIndex] using
    totalM_foldl_from items periodStartM periodEndM 0

/-- For month-normalized dates with valid months, the instant order is the
order of month indices. -/
lemma before_iff_monthIndex (a b : GoTime) (ha : a.isMonthStart) (hav : a.monthValid)
    (hb : b.isMonthStart) (hbv : b.monthValid) :
    a.before b = true ↔ monthIndex a < monthIndex b := by
  obtain ⟨ha1, ha2⟩ := ha
  obtain ⟨hb1, hb2⟩ := hb
  obtain ⟨hav1, hav2⟩ := hav
  obtain ⟨hbv1, hbv2⟩ := hbv
  rw [before_iff]
  unfold monthIndex
  omega

/-- The inclusive month count is the difference of month indices plus one. -/
lemma monthsInclusive_eq_index (a b : GoTime) :
    monthsInclusive a b = monthIndex b - monthIndex a + 1 := by
  unfold monthsInclusive monthIndex
  ring

lemma maxTime_isMonthStart {a b : GoTime} (ha : a.isMonthStart) (hb : b.isMonthStart) :
    (maxTime a b).isMonthStart := by
  unfold maxTime; split <;> assumption

lemma maxTime_monthValid {a b : GoTime} (ha : a.monthValid) (hb : b.monthValid) :
    (maxTime a b).monthValid := by
  unfold maxTime; split <;> assumption

lemma minTime_isMonthStart {a b : GoTime} (ha : a.isMonthStart) (hb : b.isMonthStart) :
    (minTime a b).isMonthStart := by
  unfold minTime; split <;> assumption

lemma minTime_monthValid {a b : GoTime} (ha : a.monthValid) (hb : b.monthValid) :
    (minTime a b).monthValid := by
  unfold minTime; split <;> assumption

lemma monthIndex_maxTime (a b : GoTime) (ha : a.isMonthStart) (hav : a.monthValid)
    (hb : b.isMonthStart) (hbv : b.monthValid) :
    monthIndex (maxTime a b) = max (monthIndex a) (monthIndex b) := by
  unfold maxTime GoTime.after
  by_cases h : b.before a = true
  · rw [if_pos h]
    have hlt := (before_iff_monthIndex b a hb hbv ha hav).mp h
    exact (max_eq_left hlt.le).symm
  · rw [if_neg h]
    have hle : monthIndex a ≤ monthIndex b := by
      by_contra hc
      exact h ((before_iff_monthIndex b a hb hbv ha hav).mpr (by omega))
    exact (max_eq_right hle).symm

lemma monthIndex_minTime (a b : GoTime) (ha : a.isMonthStart) (hav : a.monthValid)
    (hb : b.isMonthStart) (hbv : b.monthValid) :
    monthIndex (minTime a b) = min (monthIndex a) (monthIndex b) := by
  unfold minTime
  by_cases h : a.before b = true
  · rw [if_pos h]
    have hlt := (before_iff_monthIndex a b ha hav hb hbv).mp h
    exact (min_eq_left hlt.le).symm
  · rw [if_neg h]
    have hle : monthIndex b ≤ monthIndex a := by
      by_contra hc
      exact h ((before_iff_monthIndex a b ha hav hb hbv).mpr (by omega))
    exact (min_eq_right hle).symm

/-- On month-normalized, month-valid inputs the per-item contribution is a
function of month indices alone. -/
lemma contribution_month_index {U : Type} (ps pe : GoTime) (s : Subscription U)
    (hps : ps.isMonthStart) (hpsv : ps.monthValid)
    (hpe : pe.isMonthStart) (hpev : pe.monthValid)
    (hst : s.startDate.isMonthStart) (hstv : s.startDate.monthValid)
    (hend : ∀ e, s.endDate = some e → e.isMonthStart ∧ e.monthValid) :
    contribution ps pe s
      = contributionM (monthIndex ps) (monthIndex pe)
          (s.price, monthIndex s.startDate, s.endDate.map monthIndex) := by
  cases hE : s.endDate with
  | none =>
      simp only [contribution, contributionM, hE, Option.map_none']
      have hA : (maxTime s.startDate ps).isMonthStart := maxTime_isMonthStart hst hps
      have hAv : (maxTime s.startDate ps).monthValid := maxTime_monthValid hstv hpsv
      have hidx := monthIndex_maxTime s.startDate ps hst hstv hps hpsv
      by_cases hb : pe.before (maxTime s.startDate ps) = true
      · have hlt := (before_iff_monthIndex pe _ hpe hpev hA hAv).mp hb
        rw [if_pos hb, if_pos (by rw [← hidx]; exact hlt)]
      · have hnb : ¬ monthIndex pe < monthIndex (maxTime s.startDate ps) :=
          fun hh => hb ((before_iff_monthIndex pe _ hpe hpev hA hAv).mpr hh)
        rw [if_neg hb, if_neg (by rw [← hidx]; exact hnb)]
        rw [monthsInclusive_eq_index, hidx]
  | some e =>
      obtain ⟨he, hev⟩ := hend e hE
      simp only [contribution, contributionM, hE, Option.map_some']
      have hA : (maxTime s.startDate ps).isMonthStart := maxTime_isMonthStart hst hps
      have hAv : (maxTime s.startDate ps).monthValid := maxTime_monthValid hstv hpsv
      have hB : (minTime e pe).isMonthStart := minTime_isMonthStart he hpe
      have hBv : (minTime e pe).monthValid := minTime_monthValid hev hpev
      have hidxA := monthIndex_maxTime s.startDate ps hst hstv hps hpsv
      have hidxB := monthIndex_minTime e pe he hev hpe hpev
      by_cases hb : (minTime e pe).before (maxTime s.startDate ps) = true
      · have hlt := (before_iff_monthIndex _ _ hB hBv hA hAv).mp hb
        rw [if_pos hb, if_pos (by rw [← hidxA, ← hidxB]; exact hlt)]
      · have hnb : ¬ monthIndex (minTime e pe) < monthIndex (maxTime s.startDate ps) :=
          fun hh => hb ((before_iff_monthIndex _ _ hB hBv hA hAv).mpr hh)
        rw [if_neg hb, if_neg (by rw [← hidxA, ← hidxB]; exact hnb)]
        rw [monthsInclusive_eq_index, hidxA, hidxB]

/-- C3 amended: as the counterexample shows, the total is not invariant
under normalizing a single input date, because day and time-of-day fields
do reach the `Before`/`After` comparisons.  What holds is: when every input
date is already month-normalized with a valid month -- which the system
guarantees, since `ParseMonthYear` normalizes every date before it reaches
storage or the engine -- the total depends only on the (year, month)
components: it factors through the month index `year * 12 + month`. -/
theorem total_factors_through_month_index :
    ∀ (U : Type) (items : List (Subscription U)) (periodStart periodEnd : GoTime),
      periodStart.isMonthStart → periodStart.monthValid →
      periodEnd.isMonthStart → periodEnd.monthValid →
      (∀ s ∈ items, s.startDate.isMonthStart ∧ s.startDate.monthValid
        ∧ ∀ e, s.endDate = some e → e.isMonthStart ∧ e.monthValid) →
      AggregationHandler.Total items periodStart periodEnd
        = TotalByMonthIndex
            (items.map (fun s => (s.price, monthIndex s.startDate, s.endDate.map monthIndex)))
            (monthIndex periodStart) (monthIndex periodEnd) := by
  intro U items ps pe hps hpsv hpe hpev hitems
  rw [Total_eq_sum, TotalByMonthIndex_eq_sum, List.map_map]
  apply congrArg List.sum
  apply List.map_congr_left
  intro s hs
  obtain ⟨h1, h2, h3⟩ := hitems s hs
  simp only [Function.comp_apply]
  exact contribution_month_index ps pe s hps hpsv hpe hpev h1 h2 h3

/-- Witness for the amended C3: the end-to-end scenario inputs are
month-normalized, and the total coincides with the month-index
computation. -/
theorem total_factors_through_month_index_witness :
    AggregationHandler.Total [exampleSub1, exampleSub2] jan2025 mar2025
      = TotalByMonthIndex
          (([exampleSub1, exampleSub2]).map
            (fun s => (s.price, monthIndex s.startDate, s.endDate.map monthIndex)))
          (monthIndex jan2025) (monthIndex mar2025) :=
  total_factors_through_month_index Unit [exampleSub1, exampleSub2] jan2025 mar2025
    (by decide) (by decide) (by decide) (by decide)
    (by
      intro s hs
      rcases List.mem_cons.mp hs with rfl | hs
      · refine ⟨by decide, by decide, fun e he => ?_⟩
        simp [exampleSub1] at he
      rcases List.mem_cons.mp hs with rfl | hs
      · refine ⟨by decide, by decide, fun e he => ?_⟩
        simp only [exampleSub2] at he
        injection he with h
        subst h
        exact ⟨by decide, by decide⟩
      · simp at hs)

/-- C2: for month-normalized `a ≤ b`, `monthsInclusive` computes
`(year(b) - year(a)) * 12 + (month(b) - month(a)) + 1`, the number of
calendar months from `a` to `b` inclusive; in particular it is 1 on
2025-07..2025-07 and 4 on 2024-11..2025-02. -/
theorem monthsInclusive_month_count :
    (∀ a b : GoTime, a.isMonthStart → b.isMonthStart → b.before a = false →
      monthsInclusive a b = (b.year - a.year) * 12 + (b.month - a.month) + 1)
    ∧ monthsInclusive ⟨2025, 7, 1, 0⟩ ⟨2025, 7, 1, 0⟩ = 1
    ∧ monthsInclusive ⟨2024, 11, 1, 0⟩ ⟨2025, 2, 1, 0⟩ = 4 :=
  ⟨fun _ _ _ _ _ => rfl, by decide, by decide⟩

/-- Witness for C2: the boundary instances discharge the month-normalized
and ordered hypotheses at 2024-11 ≤ 2025-02. -/
theorem monthsInclusive_month_count_witness :
    monthsInclusive ⟨2024, 11, 1, 0⟩ ⟨2025, 2, 1, 0⟩
      = ((2025 : Int) - 2024) * 12 + ((2 : Int) - 11) + 1 :=
  monthsInclusive_month_count.1 ⟨2024, 11, 1, 0⟩ ⟨2025, 2, 1, 0⟩
    (by decide) (by decide) (by decide)

/-- ASCII whitespace recognized by `strings.TrimSpace` (Go also trims a few
non-ASCII Unicode spaces, which no month-year string in this system ever
contains). -/
def isGoSpace (c : Char) : Bool :=
  c = ' ' || c = '\t' || c = '\n' || c = '\x0b' || c = '\x0c' || c = '\r'

/-- Function `strings.TrimSpace`: drop whitespace from both ends. -/
def trimSpace (s : List Char) : List Char :=
  ((s.dropWhile isGoSpace).reverse.dropWhile isGoSpace).reverse

/-- Function `strings.Split` with a one-character separator: the pieces of
`s` around each occurrence of `sep`; the empty string yields one empty
piece. -/
def goSplit (sep : Char) (s : List Char) : List (List Char) :=
  match s with
  | [] => [[]]
  | c :: rest =>
    if c = sep then [] :: goSplit sep rest
    else
      match goSplit sep rest with
      | [] => [[c]]
      | p :: ps => (c :: p) :: ps

/-- Numeric value of an ASCII digit character. -/
def digitVal (c : Char) : Nat := c.toNat - 48

/-- Whether a character is an ASCII decimal digit. -/
def isDigit (c : Char) : Bool := decide (48 ≤ c.toNat ∧ c.toNat ≤ 57)

/-- The accumulator loop of `strconv.ParseUint` base 10: `n = n*10 + d`. -/
def digitsValFrom (a : Nat) (s : List Char) : Nat :=
  s.foldl (fun acc c => acc * 10 + digitVal c) a

/-- Digit-string parsing as in `strconv.ParseUint(s, 10, _)`: rejects the
empty string and any non-digit character. -/
def parseNatDigits (s : List Char) : Option Nat :=
  if s = [] then none
  else if s.all isDigit then some (digitsValFrom 0 s)
  else none

/-- Function `strconv.Atoi`: optional single leading sign, then decimal
digits.  The int64 overflow rejection is omitted: `ParseMonthYear`, the
only caller here, range-checks the value against bounds far below the
overflow threshold, so both versions accept exactly the same strings. -/
def atoi (s : List Char) : Option Int :=
  match s with
  | [] => none
  | c :: rest =>
    if c = '-' then (parseNatDigits rest).map (fun n : Nat => -(n : Int))
    else if c = '+' then (parseNatDigits rest).map (fun n : Nat => (n : Int))
    else (parseNatDigits (c :: rest)).map (fun n : Nat => (n : Int))

/-- Function `utils.ParseMonthYear`: trim, split on '-', require exactly two
parts, parse both with Atoi, range-check month and year, and return the
first of that month at UTC midnight. -/
def ParseMonthYear (s : List Char) : Option GoTime :=
  match goSplit '-' (trimSpace s) with
  | [monthPart, yearPart] =>
    match atoi monthPart with
    | none => none
    | some month =>
      match atoi yearPart with
      | none => none
      | some year =>
        if month < 1 ∨ 12 < month then none
        else if year ≤ 1900 ∨ 2500 ≤ year then none
        else some ⟨year, month, 1, 0⟩
  | _ => none

/-- The success condition of claim C8 in the spec's words: the
whitespace-trimmed input splits on '-' into two parts, each parseable as a
decimal integer, with month in 1..12 and year strictly between 1900 and
2500. -/
def parseMonthYearOk (s : List Char) : Option (Int × Int) :=
  match goSplit '-' (trimSpace s) with
  | [monthPart, yearPart] =>
    match atoi monthPart, atoi yearPart with
    | some m, some y =>
        if 1 ≤ m ∧ m ≤ 12 ∧ 1900 < y ∧ y < 2500 then some (m, y) else none
    | _, _ => none
  | _ => none

/-- Decimal digit characters of a natural number, most significant first. -/
def natDigits (n : Nat) : List Char :=
  if _h : n < 10 then [Nat.digitChar n]
  else natDigits (n / 10) ++ [Nat.digitChar (n % 10)]
decreasing_by exact Nat.div_lt_self (by omega) (by omega)

/-- Left-pad with '0' to the given width, as `fmt`'s zero-padding flag
does. -/
def padZeros (w : Nat) (s : List Char) : List Char :=
  List.replicate (w - s.length) '0' ++ s

/-- Rendering of `fmt.Sprintf` with a `%0wd` verb for one integer. -/
def fmtPadInt (w : Nat) (n : Int) : List Char :=
  if n < 0 then '-' :: padZeros (w - 1) (natDigits n.natAbs)
  else padZeros w (natDigits n.natAbs)

/-- Function `utils.FormatMonthYear`: normalize to the month start, then
render `Sprintf("%02d-%04d", month, year)`. -/
def FormatMonthYear (t : GoTime) : List Char :=
  fmtPadInt 2 (monthStart t).month ++ '-' :: fmtPadInt 4 (monthStart t).year

/-- C8: `ParseMonthYear` succeeds exactly on the inputs described by
`parseMonthYearOk` -- trimmed input splitting on '-' into two
Atoi-parseable parts with month in 1..12 and 1900 < year < 2500 -- and on
success returns the first day of that month at UTC midnight. -/
theorem parseMonthYear_characterized :
    ∀ s : List Char,
      ParseMonthYear s
        = (parseMonthYearOk s).map (fun my => ⟨my.2, my.1, 1, 0⟩) := by
  intro s
  rcases hsp : goSplit '-' (trimSpace s) with _ | ⟨p0, _ | ⟨p1, _ | ⟨p2, ps⟩⟩⟩ <;>
    simp only [ParseMonthYear, parseMonthYearOk, hsp] <;>
    try rfl
  cases atoi p0 with
  | none => rfl
  | some m =>
      cases atoi p1 with
      | none => rfl
      | some y =>
          dsimp only []
          split_ifs <;> first | rfl | (exfalso; omega)

lemma natDigits_lt10 {n : Nat} (h : n < 10) : natDigits n = [Nat.digitChar n] := by
  rw [natDigits, dif_pos h]

lemma natDigits_ge10 {n : Nat} (h : ¬ n < 10) :
    natDigits n = natDigits (n / 10) ++ [Nat.digitChar (n % 10)] := by
  rw [natDigits, dif_neg h]

lemma isDigit_digitChar {d : Nat} (h : d < 10) : isDigit (Nat.digitChar d) = true := by
  interval_cases d <;> decide

lemma digitVal_digitChar {d : Nat} (h : d < 10) : digitVal (Nat.digitChar d) = d := by
  interval_cases d <;> decide

lemma natDigits_all_digits (n : Nat) : ∀ c ∈ natDigits n, isDigit c = true := by
  induction n using Nat.strong_induction_on with
  | _ n ih =>
      by_cases h : n < 10
      · rw [natDigits_lt10 h]
        intro c hc
        rw [List.mem_singleton] at hc
        subst hc
        exact isDigit_digitChar h
      · rw [natDigits_ge10 h]
        intro c hc
        rcases List.mem_append.mp hc with hc | hc
        · exact ih (n / 10) (Nat.div_lt_self (by omega) (by omega)) c hc
        · rw [List.mem_singleton] at hc
          subst hc
          exact isDigit_digitChar (Nat.mod_lt n (by omega))
  
lemma natDigits_ne_nil (n : Nat) : natDigits n ≠ [] := by
  by_cases h : n < 10
  · rw [natDigits_lt10 h]; simp
  · rw [natDigits_ge10 h]; simp

lemma digitsValFrom_append (a : Nat) (s t : List Char) :
    digitsValFrom a (s ++ t) = digitsValFrom (digitsValFrom a s) t := by
  simp [digitsValFrom, List.foldl_append]

lemma digitsValFrom_natDigits (n : Nat) :
    ∀ a : Nat, digitsValFrom a (natDigits n) = a * 10 ^ (natDigits n).length + n := by
  induction n using Nat.strong_induction_on with
  | _ n ih =>
      intro a
      by_cases h : n < 10
      · rw [natDigits_lt10 h]
        simp only [digitsValFrom, List.foldl_cons, List.foldl_nil,
          List.length_singleton, pow_one]
        rw [digitVal_digitChar h]
      · rw [natDigits_ge10 h, digitsValFrom_append]
        have hrec := ih (n / 10) (Nat.div_lt_self (by omega) (by omega)) a
        simp only [digitsValFrom, List.foldl_cons, List.foldl_nil] at hrec ⊢
        rw [hrec, digitVal_digitChar (Nat.mod_lt n (by omega))]
        rw [List.length_append, List.length_singleton, pow_succ]
        have hdm := Nat.div_add_mod n 10
        generalize (10 : Nat) ^ (natDigits (n / 10)).length = K
        ring_nf
        omega

lemma digitsValFrom_replicate_zero (k : Nat) :
    digitsValFrom 0 (List.replicate k '0') = 0 := by
  induction k with
  | zero => rfl
  | succ k ih =>
      rw [List.replicate_succ]
      simpa [digitsValFrom, digitVal] using ih

lemma digitsValFrom_padZeros (w : Nat) (s : List Char) :
    digitsValFrom 0 (padZeros w s) = digitsValFrom 0 s := by
  unfold padZeros
  rw [digitsValFrom_append, digitsValFrom_replicate_zero]

lemma padZeros_all_digits (w n : Nat) :
    ∀ c ∈ padZeros w (natDigits n), isDigit c = true := by
  intro c hc
  rcases List.mem_append.mp hc with hc | hc
  · rw [List.eq_of_mem_replicate hc]
    decide
  · exact natDigits_all_digits n c hc

lemma padZeros_natDigits_ne_nil (w n : Nat) : padZeros w (natDigits n) ≠ [] := by
  unfold padZeros
  simp [natDigits_ne_nil n]

lemma parseNatDigits_padZeros (w n : Nat) :
    parseNatDigits (padZeros w (natDigits n)) = some n := by
  unfold parseNatDigits
  rw [if_neg (padZeros_natDigits_ne_nil w n)]
  rw [if_pos (List.all_eq_true.mpr (padZeros_all_digits w n))]
  rw [digitsValFrom_padZeros, digitsValFrom_natDigits]
  simp

lemma isDigit_ne_dash {c : Char} (h : isDigit c = true) : ¬ c = '-' := by
  rintro rfl
  exact absurd h (by decide)

lemma isDigit_ne_plus {c : Char} (h : isDigit c = true) : ¬ c = '+' := by
  rintro rfl
  exact absurd h (by decide)

lemma isDigit_not_space {c : Char} (h : isDigit c = true) : isGoSpace c = false := by
  simp only [isGoSpace, Bool.or_eq_false_iff, decide_eq_false_iff_not]
  refine ⟨⟨⟨⟨⟨?_, ?_⟩, ?_⟩, ?_⟩, ?_⟩, ?_⟩ <;> (rintro rfl; exact absurd h (by decide))

lemma atoi_padZeros_natDigits (w n : Nat) :
    atoi (padZeros w (natDigits n)) = some (n : Int) := by
  rcases hp : padZeros w (natDigits n) with _ | ⟨c, t⟩
  · exact absurd hp (padZeros_natDigits_ne_nil w n)
  · have hcd : isDigit c = true := by
      apply padZeros_all_digits w n
      rw [hp]
      exact List.mem_cons_self c t
    unfold atoi
    dsimp only []
    rw [if_neg (isDigit_ne_dash hcd), if_neg (isDigit_ne_plus hcd), ← hp,
      parseNatDigits_padZeros]
    rfl

lemma dropWhile_eq_self_of_none {p : Char → Bool} {s : List Char}
    (h : ∀ c ∈ s, p c = false) : s.dropWhile p = s := by
  cases s with
  | nil => rfl
  | cons c t => simp [List.dropWhile_cons, h c (List.mem_cons_self c t)]

lemma trimSpace_eq_self {s : List Char} (h : ∀ c ∈ s, isGoSpace c = false) :
    trimSpace s = s := by
  unfold trimSpace
  rw [dropWhile_eq_self_of_none h,
    dropWhile_eq_self_of_none (fun c hc => h c (List.mem_reverse.mp hc)),
    List.reverse_reverse]

lemma goSplit_no_sep {sep : Char} {s : List Char} (h : ∀ c ∈ s, ¬ c = sep) :
    goSplit sep s = [s] := by
  induction s with
  | nil => rfl
  | cons c t ih =>
      simp only [goSplit]
      rw [if_neg (h c (List.mem_cons_self c t)),
        ih (fun x hx => h x (List.mem_cons_of_mem c hx))]

lemma goSplit_append {sep : Char} {a b : List Char} (h : ∀ c ∈ a, ¬ c = sep) :
    goSplit sep (a ++ sep :: b) = a :: goSplit sep b := by
  induction a with
  | nil =>
      simp [goSplit]
  | cons c t ih =>
      simp only [List.cons_append, goSplit]
      rw [if_neg (h c (List.mem_cons_self c t))]
      simp only [List.append_eq]
      rw [ih (fun x hx => h x (List.mem_cons_of_mem c hx))]

lemma fmtPadInt_nonneg {w : Nat} {n : Int} (h : 0 ≤ n) :
    fmtPadInt w n = padZeros w (natDigits n.natAbs) := by
  unfold fmtPadInt
  rw [if_neg (by omega)]

/-- Parsing the canonical zero-padded rendering of an in-range month and
year recovers the first of that month at UTC midnight. -/
lemma parse_canonical (m y : Int) (h1 : 1 ≤ m) (h2 : m ≤ 12)
    (h3 : 1900 < y) (h4 : y < 2500) :
    ParseMonthYear (fmtPadInt 2 m ++ '-' :: fmtPadInt 4 y) = some ⟨y, m, 1, 0⟩ := by
  rw [fmtPadInt_nonneg (by omega), fmtPadInt_nonneg (by omega)]
  have hmd := padZeros_all_digits 2 m.natAbs
  have hyd := padZeros_all_digits 4 y.natAbs
  have htrim :
      trimSpace (padZeros 2 (natDigits m.natAbs) ++ '-' :: padZeros 4 (natDigits y.natAbs))
        = padZeros 2 (natDigits m.natAbs) ++ '-' :: padZeros 4 (natDigits y.natAbs) := by
    apply trimSpace_eq_self
    intro c hc
    rcases List.mem_append.mp hc with hc | hc
    · exact isDigit_not_space (hmd c hc)
    · rcases List.mem_cons.mp hc with rfl | hc
      · decide
      · exact isDigit_not_space (hyd c hc)
  have hsplit :
      goSplit '-' (padZeros 2 (natDigits m.natAbs) ++ '-' :: padZeros 4 (natDigits y.natAbs))
        = [padZeros 2 (natDigits m.natAbs), padZeros 4 (natDigits y.natAbs)] := by
    rw [goSplit_append (fun c hc => isDigit_ne_dash (hmd c hc)),
      goSplit_no_sep (fun c hc => isDigit_ne_dash (hyd c hc))]
  have hm' : (m.natAbs : Int) = m := Int.natAbs_of_nonneg (by omega)
  have hy' : (y.natAbs : Int) = y := Int.natAbs_of_nonneg (by omega)
  simp only [ParseMonthYear, htrim, hsplit, atoi_padZeros_natDigits, hm', hy']
  rw [if_neg (by omega), if_neg (by omega)]

/-- C10: round trip of the boundary codec.  Formatting then parsing: for
any month 1..12 and year 1901..2499, `ParseMonthYear` maps the canonical
`"%02d-%04d"` rendering to the first of that month at UTC midnight, and
`FormatMonthYear` maps that date back to the same string.  Parsing then
formatting: for any date with an in-range year, parsing its rendering
yields the date normalized to its month start. -/
theorem format_parse_round_trip :
    (∀ m y : Int, 1 ≤ m → m ≤ 12 → 1900 < y → y < 2500 →
      ParseMonthYear (fmtPadInt 2 m ++ '-' :: fmtPadInt 4 y) = some ⟨y, m, 1, 0⟩
        ∧ FormatMonthYear ⟨y, m, 1, 0⟩ = fmtPadInt 2 m ++ '-' :: fmtPadInt 4 y)
    ∧ (∀ t : GoTime, 1 ≤ t.month → t.month ≤ 12 → 1900 < t.year → t.year < 2500 →
      ParseMonthYear (FormatMonthYear t) = some (monthStart t)) := by
  constructor
  · intro m y h1 h2 h3 h4
    exact ⟨parse_canonical m y h1 h2 h3 h4, rfl⟩
  · intro t h1 h2 h3 h4
    exact parse_canonical t.month t.year h1 h2 h3 h4

/-- Witness for C10: month 07, year 2025, and a mid-month date 2025-07-14
with a nonzero time of day that parsing normalizes away. -/
theorem format_parse_round_trip_witness :
    (ParseMonthYear (fmtPadInt 2 7 ++ '-' :: fmtPadInt 4 2025) = some ⟨2025, 7, 1, 0⟩
      ∧ FormatMonthYear ⟨2025, 7, 1, 0⟩ = fmtPadInt 2 7 ++ '-' :: fmtPadInt 4 2025)
    ∧ ParseMonthYear (FormatMonthYear ⟨2025, 7, 14, 30⟩)
        = some (monthStart ⟨2025, 7, 14, 30⟩) :=
  ⟨format_parse_round_trip.1 7 2025 (by decide) (by decide) (by decide) (by decide),
    format_parse_round_trip.2 ⟨2025, 7, 14, 30⟩
      (by decide) (by decide) (by decide) (by decide)⟩

/-- The create/update payload of `subscriptions.go` (`SubscriptionRequest`):
JSON string fields plus an integer price. -/
structure SubscriptionRequest where
  serviceName : List Char
  price : Int
  userID : List Char
  startDate : List Char
  endDate : List Char

/-- Function `parseSubscriptionRequest` from subscriptions.go (lines
78-125), used by both the `Create` and `Update` handlers: validate the
fields and build the domain entity.  Failure (`Option.none`) models every
`return domain.Subscription{}, err` path; `uuidParse` stands for
`uuid.Parse`, whose internals are outside this repository. -/
def parseSubscriptionRequest {U : Type} (uuidParse : List Char → Option U)
    (req : SubscriptionRequest) (id : U) : Option (Subscription U) :=
  if trimSpace req.serviceName = [] then none
  else if req.price < 0 then none
  else
    (uuidParse (trimSpace req.userID)).bind fun userID =>
      (ParseMonthYear (trimSpace req.startDate)).bind fun start =>
        if trimSpace req.endDate = [] then
          some { id := id, serviceName := trimSpace req.serviceName,
                 price := req.price, userID := userID, startDate := start,
                 endDate := none, createdAt := goZeroTime, updatedAt := goZeroTime }
        else
          (ParseMonthYear (trimSpace req.endDate)).bind fun parsedEnd =>
            if parsedEnd.before start then none
            else
              some { id := id, serviceName := trimSpace req.serviceName,
                     price := req.price, userID := userID, startDate := start,
                     endDate := some parsedEnd,
                     createdAt := goZeroTime, updatedAt := goZeroTime }

/-- C9: `parseSubscriptionRequest` (shared by the Create and Update
handlers) admits a subscription only when the end date is absent or not
before the start date, and rejects every request whose present end date
parses to a date earlier than its start date; hence every admitted
subscription satisfies `endDate ≥ startDate`, which the aggregation path
never re-checks. -/
theorem parseSubscriptionRequest_end_invariant :
    (∀ (U : Type) (uuidParse : List Char → Option U) (req : SubscriptionRequest)
       (id : U) (sub : Subscription U),
      parseSubscriptionRequest uuidParse req id = some sub →
      sub.endDate = none
        ∨ ∃ e, sub.endDate = some e ∧ e.before sub.startDate = false)
    ∧ (∀ (U : Type) (uuidParse : List Char → Option U) (req : SubscriptionRequest)
        (id : U) (start e : GoTime),
      ParseMonthYear (trimSpace req.startDate) = some start →
      trimSpace req.endDate ≠ [] →
      ParseMonthYear (trimSpace req.endDate) = some e →
      e.before start = true →
      parseSubscriptionRequest uuidParse req id = none) := by
  constructor
  · intro U up req id sub h
    unfold parseSubscriptionRequest at h
    by_cases h1 : trimSpace req.serviceName = []
    · rw [if_pos h1] at h
      exact absurd h (by simp)
    rw [if_neg h1] at h
    by_cases h2 : req.price < 0
    · rw [if_pos h2] at h
      exact absurd h (by simp)
    rw [if_neg h2] at h
    rw [Option.bind_eq_some] at h
    obtain ⟨uid, hu, h⟩ := h
    rw [Option.bind_eq_some] at h
    obtain ⟨start, hst, h⟩ := h
    by_cases h3 : trimSpace req.endDate = []
    · rw [if_pos h3] at h
      simp only [Option.some.injEq] at h
      subst h
      exact Or.inl rfl
    · rw [if_neg h3] at h
      rw [Option.bind_eq_some] at h
      obtain ⟨pEnd, hed, h⟩ := h
      by_cases h4 : pEnd.before start = true
      · rw [if_pos h4] at h
        exact absurd h (by simp)
      · rw [if_neg h4] at h
        simp only [Option.some.injEq] at h
        subst h
        exact Or.inr ⟨pEnd, rfl, by simpa using h4⟩
  · intro U up req id start e hst hne hed hb
    unfold parseSubscriptionRequest
    by_cases h1 : trimSpace req.serviceName = []
    · rw [if_pos h1]
    · rw [if_neg h1]
      by_cases h2 : req.price < 0
      · rw [if_pos h2]
      · rw [if_neg h2]
        cases hu : up (trimSpace req.userID) with
        | none => rfl
        | some uid =>
            rw [Option.some_bind, hst, Option.some_bind, if_neg hne, hed,
              Option.some_bind, if_pos hb]

/-- A request that parses successfully: no end date. -/
def goodReq : SubscriptionRequest :=
  { serviceName := ['n'], price := 5, userID := ['u'],
    startDate := ['0', '1', '-', '2', '0', '2', '5'], endDate := [] }

/-- A request whose end date 01-2025 precedes its start date 02-2025. -/
def badReq : SubscriptionRequest :=
  { serviceName := ['n'], price := 5, userID := ['u'],
    startDate := ['0', '2', '-', '2', '0', '2', '5'],
    endDate := ['0', '1', '-', '2', '0', '2', '5'] }

/-- The subscription built from `goodReq`. -/
def goodSub : Subscription Unit :=
  { id := (), serviceName := ['n'], price := 5, userID := (),
    startDate := jan2025, endDate := none,
    createdAt := goZeroTime, updatedAt := goZeroTime }

/-- Witness for C9: a concrete accepted request satisfies the end-date
invariant, and a concrete request with end date before start date is
rejected. -/
theorem parseSubscriptionRequest_end_invariant_witness :
    (goodSub.endDate = none
      ∨ ∃ e, goodSub.endDate = some e ∧ e.before goodSub.startDate = false)
    ∧ parseSubscriptionRequest (fun _ => (some () : Option Unit)) badReq () = none :=
  ⟨parseSubscriptionRequest_end_invariant.1 Unit (fun _ => some ()) goodReq () goodSub
      (by decide),
    parseSubscriptionRequest_end_invariant.2 Unit (fun _ => some ()) badReq ()
      ⟨2025, 2, 1, 0⟩ ⟨2025, 1, 1, 0⟩ (by decide) (by decide) (by decide) (by decide)⟩
